import Mathlib

/-
  Shallow embedding of the incremental Zendesk-to-spreadsheet export job
  (src/export.js, function `run`).  The external collaborators (Zendesk
  incremental feed, user/comment detail endpoints, the Google-Sheets-backed
  store, Drive and mail) are modelled as a pure environment `Env`; the side
  effects the controller performs on the store are recorded as an explicit
  event trace.  Machine timestamps are `Int` (UNIX seconds); a `created_at`
  string that fails to parse (`new Date(...)` giving NaN) is modelled as
  `none`, and the NaN comparison semantics (every comparison false) is
  reflected in `inWindow`.
-/

namespace ZExport

/-- Separator used by `.join("\n\n---\n\n")` in src/export.js line 167. -/
def COMMENT_SEP : String := "\n\n---\n\n"

/-- A ticket comment as consumed by the enrichment step. -/
structure Comment where
  public : Bool
  author_id : Nat
  body : String
deriving DecidableEq, Repr

/-- A raw ticket from the incremental feed.  `created_at` is the parsed
numeric timestamp of the upstream string, `none` when unparseable. -/
structure Ticket where
  id : Nat
  created_at : Option Int
  requester_id : Option Nat
  channel : Option String
  subject : Option String
deriving DecidableEq, Repr

/-- One response of the incremental feed endpoint: `data.tickets` may be
absent, `data.end_time`, `data.end_of_stream`, and whether `data.next_page`
is present (truthy). -/
structure Page where
  tickets : Option (List Ticket)
  end_time : Int
  end_of_stream : Bool
  next_page : Bool
deriving DecidableEq, Repr

/-- Result of an awaited HTTP sub-call: the promise rejected (`thrown`),
or resolved to a JSON value. -/
inductive Lookup (α : Type) where
  | thrown (msg : String)
  | ok (val : α)

/-- One staging row, columns A..F of Tickets_Raw (src/export.js 169-176). -/
structure Row where
  record_id : Nat
  created_at : Option Int
  requester_email : String
  channel : String
  subject : String
  body_digest : String
deriving DecidableEq, Repr

/-- One audit row appended to Logs!A:G by `log` (src/export.js 55-74);
the wall-clock timestamp column is not modelled. -/
structure LogEntry where
  monthStr : String
  checkpoint : String
  fetched : Nat
  saved : Nat
  lastTicket : String
  status : String
deriving DecidableEq, Repr

/-- Side effects of the controller on the store / Drive / mail, in order. -/
inductive Event where
  | appendStaging (rows : List Row)
  | writeCheckpoint (c : Int)
  | logRow (entry : LogEntry)
  | createFile (name : String)
  | writeReport (header : List String) (rows : List Row)
  | grantAccess (email : String)
  | sendMail (recipients : List String)
  | clearState
  | clearStaging
deriving DecidableEq, Repr

/-- Durable state in the system spreadsheet: the single unscoped
`State!A2:B2` checkpoint cell, the Tickets_Raw staging rows and the Logs
rows.  Note the checkpoint carries no window identifier: the stored key
is the literal string "checkpoint" (src/export.js 94, 200). -/
structure Store where
  checkpoint : Option Int
  staging : List Row
  logs : List LogEntry
deriving DecidableEq, Repr

/-- The external world: feed page by cursor, user lookup by requester id
(yielding `user?.email`), comment lookup by ticket id (yielding the
`comments` field), and the staging append call which may fail
(`some msg` models a rejected sheets append). -/
structure Env where
  fetch : Int → Page
  userLookup : Nat → Lookup (Option String)
  commentLookup : Nat → Lookup (Option (List Comment))
  append : List Row → Option String

/-- An export window: month id and half-open `[start, end)` interval. -/
structure Window where
  monthStr : String
  startTimestamp : Int
  endTimestamp : Int
deriving DecidableEq, Repr

/-- JavaScript `v || dflt` on an optional string: `undefined` and the
empty string are falsy. -/
def jsOr (v : Option String) (dflt : String) : String :=
  match v with
  | some s => if s = "" then dflt else s
  | none => dflt

/-- JavaScript `Array.prototype.join(sep)`. -/
def joinSep (sep : String) : List String → String
  | [] => ""
  | [x] => x
  | x :: y :: xs => x ++ sep ++ joinSep sep (y :: xs)

/-- Role prefix chosen at src/export.js 162-165 (`===` against the
ticket's possibly-absent `requester_id`). -/
def roleLabel (requester_id : Option Nat) (c : Comment) : String :=
  if requester_id = some c.author_id then "**Requester:**" else "**Agent:**"

/-- Body digest built at src/export.js 159-167: keep `c.public`
comments, prefix each with its role label, join with the separator. -/
def formatComments (requester_id : Option Nat) (comments : List Comment) : String :=
  joinSep COMMENT_SEP
    ((comments.filter (fun c => c.public)).map
      (fun c => roleLabel requester_id c ++ " " ++ c.body))

/-- Enrichment of one admitted ticket (src/export.js 137-176): requester
email via user lookup (absent id or absent/empty email gives "N/A"),
then comments; a rejected sub-call propagates as a thrown error. -/
def enrichTicket (env : Env) (t : Ticket) : Except String Row :=
  let emailStep : Except String String :=
    match t.requester_id with
    | none => Except.ok "N/A"
    | some rid =>
      match env.userLookup rid with
      | Lookup.thrown m => Except.error m
      | Lookup.ok e => Except.ok (jsOr e "N/A")
  match emailStep with
  | Except.error m => Except.error m
  | Except.ok requesterEmail =>
    match env.commentLookup t.id with
    | Lookup.thrown m => Except.error m
    | Lookup.ok cs =>
      Except.ok
        { record_id := t.id
          created_at := t.created_at
          requester_email := requesterEmail
          channel := jsOr t.channel ""
          subject := jsOr t.subject ""
          body_digest := formatComments t.requester_id (cs.getD []) }

/-- Window admission test of src/export.js 133: `createdTs >= start &&
createdTs < end`; a NaN timestamp fails both comparisons. -/
def inWindow (W : Window) (created : Option Int) : Bool :=
  match created with
  | some ts => decide (W.startTimestamp ≤ ts) && decide (ts < W.endTimestamp)
  | none => false

/-- The per-page ticket loop (src/export.js 127-178): admitted tickets
are enriched in order (updating `lastTicketID`), a thrown enrichment
aborts the whole pass. -/
def processTickets (env : Env) (W : Window) :
    List Ticket → Option Nat → Except String (List Row × Option Nat)
  | [], last => Except.ok ([], last)
  | t :: ts, last =>
    if inWindow W t.created_at then
      match enrichTicket env t with
      | Except.error m => Except.error m
      | Except.ok row =>
        match processTickets env W ts (some t.id) with
        | Except.error m => Except.error m
        | Except.ok (rows, last2) => Except.ok (row :: rows, last2)
    else
      processTickets env W ts last

/-- Replay one event on the durable store. -/
def Store.apply (s : Store) : Event → Store
  | Event.appendStaging rows => { s with staging := s.staging ++ rows }
  | Event.writeCheckpoint c => { s with checkpoint := some c }
  | Event.logRow e => { s with logs := s.logs ++ [e] }
  | Event.clearState => { s with checkpoint := none }
  | Event.clearStaging => { s with staging := [] }
  | _ => s

/-- In-flight state of one invocation of `run`: the store, the trace of
effects performed so far, and the local variables of src/export.js. -/
structure St where
  store : Store
  trace : List Event
  checkpoint : Int
  totalFetched : Nat
  totalSaved : Nat
  lastTicketID : Option Nat
deriving Repr

/-- Perform one side effect: apply it to the store and record it. -/
def St.emit (s : St) (e : Event) : St :=
  { s with store := s.store.apply e, trace := s.trace ++ [e] }

/-- Rendering of `lastTicketID` in a log row (null until first admit). -/
def lastTicketStr : Option Nat → String
  | none => "null"
  | some i => toString i

/-- The per-iteration "Running" audit row (src/export.js 203). -/
def runningEntry (W : Window) (cp : Int) (fetched saved : Nat) (last : Option Nat) : LogEntry :=
  { monthStr := W.monthStr, checkpoint := toString cp, fetched := fetched,
    saved := saved, lastTicket := lastTicketStr last, status := "Running" }

/-- Loop-continuation condition of src/export.js 205-209: the `while`
re-enters only if the break (`end_of_stream || checkpoint >= end`) did
not fire and `data.next_page` is truthy. -/
def contAfter (W : Window) (data : Page) : Bool :=
  !(data.end_of_stream || decide (W.endTimestamp ≤ data.end_time)) && data.next_page

/-- Outcome of one iteration of the `while (nextUrl)` loop body. -/
inductive PageOut where
  | fail (msg : String) (s : St)
  | next (s : St) (cont : Bool)

/-- State carried by a loop-body outcome. -/
def PageOut.stOf : PageOut → St
  | fail _ s => s
  | next s _ => s

/-- Continuation flag of a loop-body outcome (`false` on failure). -/
def PageOut.contOf : PageOut → Bool
  | fail _ _ => false
  | next _ c => c

/-- Tail of the loop body (src/export.js 192-209): adopt the page's
`end_time` as the checkpoint, commit it, append the audit row, decide
whether the loop continues. -/
def commitAndLog (W : Window) (data : Page) (s : St) : PageOut :=
  let s1 := { s with checkpoint := data.end_time }
  let s2 := s1.emit (Event.writeCheckpoint data.end_time)
  let s3 := s2.emit
    (Event.logRow (runningEntry W data.end_time s2.totalFetched s2.totalSaved s2.lastTicketID))
  PageOut.next s3 (contAfter W data)

/-- One full iteration of the loop body (src/export.js 113-210): fetch
the page at the current cursor, filter and enrich, append the batch when
non-empty (a rejected append aborts before any commit), then commit the
checkpoint and log. -/
def stepPage (env : Env) (W : Window) (s : St) : PageOut :=
  let data := env.fetch s.checkpoint
  let tickets := data.tickets.getD []
  let s1 := { s with totalFetched := s.totalFetched + tickets.length }
  match processTickets env W tickets s1.lastTicketID with
  | Except.error m => PageOut.fail m s1
  | Except.ok (rows, last) =>
    let s2 := { s1 with lastTicketID := last }
    if rows.length > 0 then
      match env.append rows with
      | some m => PageOut.fail m s2
      | none =>
        let s3 := { s2.emit (Event.appendStaging rows) with
                    totalSaved := s2.totalSaved + rows.length }
        commitAndLog W data s3
    else
      commitAndLog W data s2

/-- Result of driving the loop with bounded fuel: the loop exited
normally (`done`), the invocation threw (`err`), or fuel ran out while
the loop would have continued — `spin` marks a truncated run. -/
inductive LoopOut where
  | done (s : St)
  | err (msg : String) (s : St)
  | spin (s : St)

/-- State carried by any loop outcome. -/
def LoopOut.st : LoopOut → St
  | done s => s
  | err _ s => s
  | spin s => s

/-- The `while (nextUrl)` loop, fuelled. -/
def runLoop (env : Env) (W : Window) : Nat → St → LoopOut
  | 0, s => LoopOut.spin s
  | Nat.succ fuel, s =>
    match stepPage env W s with
    | PageOut.fail m s1 => LoopOut.err m s1
    | PageOut.next s1 cont =>
      if cont then runLoop env W fuel s1 else LoopOut.done s1

/-- Header row written into the export workbook (src/export.js 238). -/
def REPORT_HEADER : List String :=
  ["Ticket ID", "Created At", "Requester Email", "Channel", "Subject", "All Public Comments"]

/-- The final "Export Complete" audit row (src/export.js 288). -/
def completeEntry (W : Window) (fetched saved : Nat) : LogEntry :=
  { monthStr := W.monthStr, checkpoint := "FINAL", fetched := fetched, saved := saved,
    lastTicket := "DONE", status := "Export Complete" }

/-- Finalization (src/export.js 216-290): create the workbook, populate
it with header plus the staging rows read back from Tickets_Raw, grant
access per recipient, send one mail only when recipients exist, clear
the checkpoint cell and staging, log completion. -/
def finalize (W : Window) (recipients : List String) (s : St) : St :=
  let s1 := s.emit (Event.createFile ("Zendesk Export - " ++ W.monthStr))
  let s2 := s1.emit (Event.writeReport REPORT_HEADER s1.store.staging)
  let s3 := recipients.foldl (fun acc e => acc.emit (Event.grantAccess e)) s2
  let s4 := if recipients.length > 0 then s3.emit (Event.sendMail recipients) else s3
  let s5 := s4.emit Event.clearState
  let s6 := s5.emit Event.clearStaging
  s6.emit (Event.logRow (completeEntry W s6.totalFetched s6.totalSaved))

/-- Checkpoint read (src/export.js 85-98): seed to the window start,
overridden by whatever value sits under the unscoped key "checkpoint"
in State!A:B — the window id plays no part in the lookup. -/
def readCheckpoint (store : Store) (W : Window) : Int :=
  match store.checkpoint with
  | some c => c
  | none => W.startTimestamp

/-- The audit row written by the top-level catch (src/export.js 297-300). -/
def errorEntry (W : Window) (m : String) : LogEntry :=
  { monthStr := W.monthStr, checkpoint := "UNKNOWN", fetched := 0, saved := 0,
    lastTicket := "FAIL", status := "ERROR: " ++ m }

/-- Terminal status of one invocation. -/
inductive RunStatus where
  | completed
  | crashed (msg : String)
  | timedOut
deriving DecidableEq, Repr

/-- One invocation of `run` plus the top-level catch: read the
checkpoint, drive the loop, and finalize unconditionally once the loop
exits; a thrown error reaches the catch, which logs the error row. -/
def runOnce (env : Env) (W : Window) (recipients : List String) (fuel : Nat)
    (store : Store) : RunStatus × St :=
  let s0 : St :=
    { store := store, trace := [], checkpoint := readCheckpoint store W,
      totalFetched := 0, totalSaved := 0, lastTicketID := none }
  match runLoop env W fuel s0 with
  | LoopOut.done s => (RunStatus.completed, finalize W recipients s)
  | LoopOut.err m s => (RunStatus.crashed m, s.emit (Event.logRow (errorEntry W m)))
  | LoopOut.spin s => (RunStatus.timedOut, s)

/-- Checkpoint values committed in a trace, in order. -/
def commits : List Event → List Int
  | [] => []
  | Event.writeCheckpoint c :: es => c :: commits es
  | _ :: es => commits es

/-- Decidable check that a trace holds no staging append. -/
def noAppends (es : List Event) : Bool :=
  es.all (fun e => match e with | Event.appendStaging _ => false | _ => true)

/-- A sequence of invocations for one window, threading the durable
store; returns the final store, all committed checkpoint values in
order, and each invocation's status. -/
def runSeq (W : Window) (recipients : List String) :
    List (Env × Nat) → Store → Store × List Int × List RunStatus
  | [], store => (store, [], [])
  | (env, fuel) :: rest, store =>
    let r := runOnce env W recipients fuel store
    let r2 := runSeq W recipients rest r.2.store
    (r2.1, commits r.2.trace ++ r2.2.1, r.1 :: r2.2.2)

/-- Spec-side role label: "Requester" when the comment author id equals
the record's requester id, else "Agent". -/
def specRole (requesterId : Option Nat) (c : Comment) : String :=
  if some c.author_id = requesterId then "**Requester:**" else "**Agent:**"

/-- Whether some public comment remains in the list. -/
def hasPublic (cs : List Comment) : Bool := cs.any (fun c => c.public)

/-- Spec-side body digest, following the spec's words independently of
the source's filter/map/join pipeline: walk the comments in upstream
order, skip non-public ones, label each retained body by comparing the
author id to the requester id, and place the fixed separator between
consecutive retained comments. -/
def specBodyDigest (requesterId : Option Nat) : List Comment → String
  | [] => ""
  | c :: cs =>
    if c.public then
      if hasPublic cs then
        specRole requesterId c ++ " " ++ c.body ++ COMMENT_SEP ++ specBodyDigest requesterId cs
      else
        specRole requesterId c ++ " " ++ c.body
    else specBodyDigest requesterId cs

/-! Concrete fixtures used to instantiate the theorems below. -/

/-- A December-like window `[1000, 2000)`. -/
def WDec : Window := { monthStr := "2025-12", startTimestamp := 1000, endTimestamp := 2000 }

/-- The following calendar window `[2000, 3000)`. -/
def WJan : Window := { monthStr := "2026-01", startTimestamp := 2000, endTimestamp := 3000 }

/-- A store with no checkpoint, no staging rows and no logs. -/
def storeEmpty : Store := { checkpoint := none, staging := [], logs := [] }

/-- Initial in-flight state for a fresh `WDec` run over `storeEmpty`. -/
def stInit : St :=
  { store := storeEmpty, trace := [], checkpoint := readCheckpoint storeEmpty WDec,
    totalFetched := 0, totalSaved := 0, lastTicketID := none }

/-- A ticket whose `created_at` string did not parse. -/
def tUnparseable : Ticket :=
  { id := 10, created_at := none, requester_id := some 5, channel := none, subject := none }

/-- An upstream whose page carries no tickets array at all. -/
def envNoTickets : Env :=
  { fetch := fun _ => { tickets := none, end_time := 1500, end_of_stream := true, next_page := false },
    userLookup := fun _ => Lookup.ok none,
    commentLookup := fun _ => Lookup.ok none,
    append := fun _ => none }

/-- A single-page upstream holding one in-window ticket with no
requester id. -/
def envOne : Env :=
  { fetch := fun _ =>
      { tickets := some [{ id := 7, created_at := some 1500, requester_id := none,
                           channel := none, subject := none }],
        end_time := 2500, end_of_stream := true, next_page := false },
    userLookup := fun _ => Lookup.ok none,
    commentLookup := fun _ => Lookup.ok none,
    append := fun _ => none }

/-- The staging row `envOne`'s ticket enriches to. -/
def rowOne : Row :=
  { record_id := 7, created_at := some 1500, requester_email := "N/A",
    channel := "", subject := "", body_digest := "" }

/-- An upstream that signals end-of-stream while its cursor is still
inside the window. -/
def envShortFeed : Env :=
  { fetch := fun _ => { tickets := some [], end_time := 1500, end_of_stream := true, next_page := false },
    userLookup := fun _ => Lookup.ok none,
    commentLookup := fun _ => Lookup.ok none,
    append := fun _ => none }

/-- A feed-contract-respecting upstream whose pages are empty: the new
cursor is the old one pushed to at least 5000. -/
def envHigh : Env :=
  { fetch := fun c => { tickets := some [], end_time := max c 5000, end_of_stream := true, next_page := false },
    userLookup := fun _ => Lookup.ok none,
    commentLookup := fun _ => Lookup.ok none,
    append := fun _ => none }

/-- Like `envHigh` but only pushing the cursor to at least 1500. -/
def envLow : Env :=
  { fetch := fun c => { tickets := some [], end_time := max c 1500, end_of_stream := true, next_page := false },
    userLookup := fun _ => Lookup.ok none,
    commentLookup := fun _ => Lookup.ok none,
    append := fun _ => none }

/-- A contract-respecting upstream for re-invocation past the window
end: the page at cursor `c` holds one ticket at feed position
`max c 2000` and pushes the cursor to at least 5000. -/
def envPastEnd : Env :=
  { fetch := fun c =>
      { tickets := some [{ id := 7, created_at := some (max c 2000), requester_id := none,
                           channel := none, subject := none }],
        end_time := max c 5000, end_of_stream := true, next_page := false },
    userLookup := fun _ => Lookup.ok none,
    commentLookup := fun _ => Lookup.ok none,
    append := fun _ => none }

/-- A store already carrying a committed checkpoint at `WDec`'s end. -/
def storeAtEnd : Store := { checkpoint := some 2000, staging := [], logs := [] }

/-- An upstream whose first page (cursor below 1500) is empty and
advances the cursor to 1500 with a next page, and whose second page
holds a ticket whose requester lookup throws: a `WDec` run commits 1500
and then crashes, leaving the checkpoint in place. -/
def envCrash : Env :=
  { fetch := fun c =>
      if c < 1500 then
        { tickets := some [], end_time := 1500, end_of_stream := false, next_page := true }
      else
        { tickets := some [{ id := 9, created_at := some 1500, requester_id := some 5,
                             channel := none, subject := none }],
          end_time := 2500, end_of_stream := true, next_page := false },
    userLookup := fun _ => Lookup.thrown "boom",
    commentLookup := fun _ => Lookup.ok none,
    append := fun _ => none }

/-- A probe upstream that reveals which cursor a run started from: the
committed checkpoint becomes the starting cursor plus 10. -/
def envProbe : Env :=
  { fetch := fun c => { tickets := some [], end_time := c + 10, end_of_stream := true, next_page := false },
    userLookup := fun _ => Lookup.ok none,
    commentLookup := fun _ => Lookup.ok none,
    append := fun _ => none }

/-- Ticket with a requester, admitted by `WDec`. -/
def tA : Ticket :=
  { id := 7, created_at := some 1500, requester_id := some 5, channel := none, subject := none }

/-- Ticket without a requester, admitted by `WDec`. -/
def tB : Ticket :=
  { id := 8, created_at := some 1600, requester_id := none, channel := none, subject := none }

/-- Upstream serving `[tA, tB]` whose identity lookup request throws. -/
def envThrown : Env :=
  { fetch := fun _ => { tickets := some [tA, tB], end_time := 2500, end_of_stream := true, next_page := false },
    userLookup := fun _ => Lookup.thrown "boom",
    commentLookup := fun _ => Lookup.ok none,
    append := fun _ => none }

/-- Upstream serving `[tA, tB]` whose identity lookup resolves to a
body without a user (an HTTP-level lookup failure). -/
def envUserless : Env :=
  { fetch := fun _ => { tickets := some [tA, tB], end_time := 2500, end_of_stream := true, next_page := false },
    userLookup := fun _ => Lookup.ok none,
    commentLookup := fun _ => Lookup.ok none,
    append := fun _ => none }

/-- Upstream serving `[tA, tB]` whose identity lookup succeeds. -/
def envUserOk : Env :=
  { fetch := fun _ => { tickets := some [tA, tB], end_time := 2500, end_of_stream := true, next_page := false },
    userLookup := fun _ => Lookup.ok (some "u@x.io"),
    commentLookup := fun _ => Lookup.ok none,
    append := fun _ => none }

/-- The degraded row `tA` yields when its identity lookup resolves
without a user. -/
def rowANA : Row :=
  { record_id := 7, created_at := some 1500, requester_email := "N/A",
    channel := "", subject := "", body_digest := "" }

/-- The row `tB` yields (it has no requester id). -/
def rowBNA : Row :=
  { record_id := 8, created_at := some 1600, requester_email := "N/A",
    channel := "", subject := "", body_digest := "" }

/-! Basic lemmas about the state transformer. -/

@[simp]
lemma St.emit_trace (s : St) (e : Event) : (s.emit e).trace = s.trace ++ [e] := rfl

@[simp]
lemma St.emit_checkpoint (s : St) (e : Event) : (s.emit e).checkpoint = s.checkpoint := rfl

@[simp]
lemma St.emit_store (s : St) (e : Event) : (s.emit e).store = s.store.apply e := rfl

@[simp]
lemma St.emit_totalFetched (s : St) (e : Event) :
    (s.emit e).totalFetched = s.totalFetched := rfl

@[simp]
lemma St.emit_totalSaved (s : St) (e : Event) : (s.emit e).totalSaved = s.totalSaved := rfl

@[simp]
lemma St.emit_lastTicketID (s : St) (e : Event) :
    (s.emit e).lastTicketID = s.lastTicketID := rfl

lemma foldl_grant (l : List String) (s : St) :
    l.foldl (fun acc e => acc.emit (Event.grantAccess e)) s =
      { s with trace := s.trace ++ l.map Event.grantAccess } := by
  induction l generalizing s with
  | nil => simp only [List.foldl_nil, List.map_nil, List.append_nil]
  | cons a l ih =>
    simp only [List.foldl_cons, List.map_cons, ih]
    simp [St.emit, Store.apply, List.append_assoc]

/-- Complete characterization of the finalization step: its effect on
the store and the exact sequence of events it performs. -/
lemma finalize_spec (W : Window) (rec : List String) (s : St) :
    finalize W rec s =
      { s with
        store :=
          { checkpoint := none, staging := [],
            logs := s.store.logs ++ [completeEntry W s.totalFetched s.totalSaved] },
        trace := s.trace ++
          [Event.createFile ("Zendesk Export - " ++ W.monthStr),
           Event.writeReport REPORT_HEADER s.store.staging] ++
          rec.map Event.grantAccess ++
          (if 0 < rec.length then [Event.sendMail rec] else []) ++
          [Event.clearState, Event.clearStaging,
           Event.logRow (completeEntry W s.totalFetched s.totalSaved)] } := by
  simp only [finalize, foldl_grant]
  split <;> simp [St.emit, Store.apply, List.append_assoc]

/-! Claim C6: the body digest is built from exactly the public comments,
each labeled by comparing its author id to the requester id, joined with
the fixed separator in upstream order. -/

lemma hasPublic_false_of_filter_nil {cs : List Comment}
    (h : cs.filter (fun c => c.public) = []) : hasPublic cs = false := by
  rw [List.filter_eq_nil_iff] at h
  simp only [hasPublic, List.any_eq_true]
  simp only [Bool.not_eq_true] at h ⊢
  by_contra hx
  simp only [Bool.not_eq_false, List.any_eq_true] at hx
  obtain ⟨x, hmem, hpub⟩ := hx
  exact absurd hpub (by simpa using h x hmem)

lemma hasPublic_true_of_filter_cons {cs : List Comment} {d : Comment} {ds : List Comment}
    (h : cs.filter (fun c => c.public) = d :: ds) : hasPublic cs = true := by
  simp only [hasPublic, List.any_eq_true]
  have hd : d ∈ cs.filter (fun c => c.public) := by simp [h]
  rw [List.mem_filter] at hd
  exact ⟨d, hd.1, by simpa using hd.2⟩

lemma joinSep_cons_of_ne (sep x : String) (l : List String) (h : l ≠ []) :
    joinSep sep (x :: l) = x ++ sep ++ joinSep sep l := by
  cases l with
  | nil => exact absurd rfl h
  | cons y ys => rfl

lemma roleLabel_eq_specRole (rid : Option Nat) (c : Comment) :
    roleLabel rid c = specRole rid c := by
  simp [roleLabel, specRole, eq_comm]

lemma formatComments_eq_spec (rid : Option Nat) :
    ∀ cs : List Comment, formatComments rid cs = specBodyDigest rid cs := by
  intro cs
  induction cs with
  | nil => rfl
  | cons c cs ih =>
    by_cases hc : c.public = true
    · cases hfp : cs.filter (fun c => c.public) with
      | nil =>
        have hp := hasPublic_false_of_filter_nil hfp
        have hL : formatComments rid (c :: cs) = roleLabel rid c ++ " " ++ c.body := by
          unfold formatComments
          rw [List.filter_cons, if_pos hc, hfp]
          rfl
        have hR : specBodyDigest rid (c :: cs) = specRole rid c ++ " " ++ c.body := by
          simp only [specBodyDigest]
          rw [if_pos hc, if_neg (by simp [hp])]
        rw [hL, hR, roleLabel_eq_specRole]
      | cons d ds =>
        have hp := hasPublic_true_of_filter_cons hfp
        have ih2 : joinSep COMMENT_SEP
            ((d :: ds).map (fun c => roleLabel rid c ++ " " ++ c.body)) =
            specBodyDigest rid cs := by
          rw [← ih]
          unfold formatComments
          rw [hfp]
        have hL : formatComments rid (c :: cs) =
            roleLabel rid c ++ " " ++ c.body ++ COMMENT_SEP ++
              joinSep COMMENT_SEP ((d :: ds).map (fun c => roleLabel rid c ++ " " ++ c.body)) := by
          unfold formatComments
          rw [List.filter_cons, if_pos hc, hfp, List.map_cons,
            joinSep_cons_of_ne _ _ _ (by simp)]
        have hR : specBodyDigest rid (c :: cs) =
            specRole rid c ++ " " ++ c.body ++ COMMENT_SEP ++ specBodyDigest rid cs := by
          simp only [specBodyDigest]
          rw [if_pos hc, if_pos hp]
        rw [hL, ih2, hR, roleLabel_eq_specRole]
    · have hc2 : c.public = false := by simpa using hc
      have hskip : formatComments rid (c :: cs) = formatComments rid cs := by
        unfold formatComments
        rw [List.filter_cons, if_neg (by simp [hc2])]
      rw [hskip, ih]
      simp [specBodyDigest, hc2]

/-- Claim C6 (confirmed): for every enriched record, the body digest is
built from exactly the comments marked public — a comment with
`public = false` never contributes — each labeled "Requester" when its
author id equals the record's requester id and "Agent" otherwise,
joined with the fixed separator in the order the comments were returned
upstream (the spec-side recursion `specBodyDigest` states exactly this). -/
theorem body_digest_public_only_labeled_ordered :
    ∀ (rid : Option Nat) (cs : List Comment),
      formatComments rid cs = specBodyDigest rid cs ∧
      formatComments rid cs = formatComments rid (cs.filter (fun c => c.public)) := by
  intro rid cs
  refine ⟨formatComments_eq_spec rid cs, ?_⟩
  simp only [formatComments, List.filter_filter, Bool.and_self]

/-- Claim C9 (confirmed): with an empty recipient list the finalizer
still creates the report artifact populated with the header plus the
staging rows, still clears the staging rows and the checkpoint, and
still logs completion, while the emitted events contain no access grant
and no notification mail. -/
theorem finalize_with_no_recipients :
    ∀ (W : Window) (s : St),
      finalize W [] s =
        { s with
          store :=
            { checkpoint := none, staging := [],
              logs := s.store.logs ++ [completeEntry W s.totalFetched s.totalSaved] },
          trace := s.trace ++
            [Event.createFile ("Zendesk Export - " ++ W.monthStr),
             Event.writeReport REPORT_HEADER s.store.staging,
             Event.clearState, Event.clearStaging,
             Event.logRow (completeEntry W s.totalFetched s.totalSaved)] } := by
  intro W s
  rw [finalize_spec]
  simp

/-- Claim C10 (confirmed): an upstream page without a tickets array is
processed as an empty page — no failure, no staging append, only the
checkpoint commit and the audit row — and a ticket whose `created_at`
does not parse to a number is silently dropped by the window predicate
(it satisfies neither bound) without raising any error. -/
theorem missing_tickets_and_bad_timestamps_are_benign :
    ∀ (env : Env) (W : Window) (s : St),
      ((env.fetch s.checkpoint).tickets = none →
        stepPage env W s =
          PageOut.next
            ({ s with
               checkpoint := (env.fetch s.checkpoint).end_time,
               store := (s.store.apply
                  (Event.writeCheckpoint (env.fetch s.checkpoint).end_time)).apply
                  (Event.logRow (runningEntry W (env.fetch s.checkpoint).end_time
                    s.totalFetched s.totalSaved s.lastTicketID)),
               trace := s.trace ++
                 [Event.writeCheckpoint (env.fetch s.checkpoint).end_time,
                  Event.logRow (runningEntry W (env.fetch s.checkpoint).end_time
                    s.totalFetched s.totalSaved s.lastTicketID)] })
            (contAfter W (env.fetch s.checkpoint))) ∧
      ∀ (t : Ticket), t.created_at = none →
        inWindow W t.created_at = false ∧
        ∀ (ts : List Ticket) (last : Option Nat),
          processTickets env W (t :: ts) last = processTickets env W ts last := by
  intro env W s
  constructor
  · intro hnone
    simp only [stepPage, hnone, Option.getD_none, List.length_nil, Nat.add_zero,
      processTickets]
    unfold commitAndLog
    simp [St.emit, List.append_assoc]
  · intro t hnone
    constructor
    · rw [hnone]; rfl
    · intro ts last
      have hw : inWindow W t.created_at = false := by rw [hnone]; rfl
      simp only [processTickets, hw]
      simp

/-- Concrete instantiations discharging the hypotheses of the previous
theorem: a feed whose page carries no tickets field, and a ticket whose
timestamp failed to parse. -/
theorem missing_tickets_and_bad_timestamps_witness :
    (envNoTickets.fetch stInit.checkpoint).tickets = none ∧
    tUnparseable.created_at = none ∧
    (stepPage envNoTickets WDec stInit =
      PageOut.next
        ({ stInit with
           checkpoint := (envNoTickets.fetch stInit.checkpoint).end_time,
           store := (stInit.store.apply
              (Event.writeCheckpoint (envNoTickets.fetch stInit.checkpoint).end_time)).apply
              (Event.logRow (runningEntry WDec (envNoTickets.fetch stInit.checkpoint).end_time
                stInit.totalFetched stInit.totalSaved stInit.lastTicketID)),
           trace := stInit.trace ++
             [Event.writeCheckpoint (envNoTickets.fetch stInit.checkpoint).end_time,
              Event.logRow (runningEntry WDec (envNoTickets.fetch stInit.checkpoint).end_time
                stInit.totalFetched stInit.totalSaved stInit.lastTicketID)] })
        (contAfter WDec (envNoTickets.fetch stInit.checkpoint))) ∧
    inWindow WDec tUnparseable.created_at = false ∧
    processTickets envNoTickets WDec [tUnparseable] none =
      processTickets envNoTickets WDec [] none := by
  refine ⟨rfl, rfl, ?_, ?_, ?_⟩
  · exact (missing_tickets_and_bad_timestamps_are_benign envNoTickets WDec stInit).1 rfl
  · exact ((missing_tickets_and_bad_timestamps_are_benign envNoTickets WDec stInit).2
      tUnparseable rfl).1
  · exact ((missing_tickets_and_bad_timestamps_are_benign envNoTickets WDec stInit).2
      tUnparseable rfl).2 [] none

/-- Master characterization of one loop-body iteration: either the
iteration throws — having performed no side effect at all — or it
succeeds, in which case the page's admitted rows were computed by
`processTickets`, the checkpoint commit carries the page's `end_time`,
and the emitted events are exactly the (possible) staging append,
followed by the checkpoint write, followed by the audit row — the
append, when rows exist, having succeeded. -/
lemma stepPage_cases (env : Env) (W : Window) (s : St) :
    (∃ m s1, stepPage env W s = PageOut.fail m s1 ∧
       s1.trace = s.trace ∧ s1.store = s.store ∧ s1.checkpoint = s.checkpoint ∧
       (processTickets env W ((env.fetch s.checkpoint).tickets.getD []) s.lastTicketID =
          Except.error m ∨
        ∃ rows last2, rows ≠ [] ∧
          processTickets env W ((env.fetch s.checkpoint).tickets.getD []) s.lastTicketID =
            Except.ok (rows, last2) ∧
          env.append rows = some m)) ∨
    (∃ s1 cont rows entry,
       stepPage env W s = PageOut.next s1 cont ∧
       s1.checkpoint = (env.fetch s.checkpoint).end_time ∧
       s1.store.checkpoint = some (env.fetch s.checkpoint).end_time ∧
       cont = contAfter W (env.fetch s.checkpoint) ∧
       processTickets env W ((env.fetch s.checkpoint).tickets.getD []) s.lastTicketID =
         Except.ok (rows, s1.lastTicketID) ∧
       s1.store.logs = s.store.logs ++ [entry] ∧
       ((rows = [] ∧
          s1.trace = s.trace ++
            [Event.writeCheckpoint (env.fetch s.checkpoint).end_time, Event.logRow entry] ∧
          s1.store.staging = s.store.staging) ∨
        (rows ≠ [] ∧ env.append rows = none ∧
          s1.trace = s.trace ++
            [Event.appendStaging rows,
             Event.writeCheckpoint (env.fetch s.checkpoint).end_time, Event.logRow entry] ∧
          s1.store.staging = s.store.staging ++ rows))) := by
  simp only [stepPage]
  cases hpt : processTickets env W ((env.fetch s.checkpoint).tickets.getD []) s.lastTicketID with
  | error m =>
    left
    exact ⟨m, _, rfl, rfl, rfl, rfl, Or.inl rfl⟩
  | ok p =>
    obtain ⟨rows, last⟩ := p
    dsimp only
    by_cases hr : rows.length > 0
    · rw [if_pos hr]
      cases hap : env.append rows with
      | some m =>
        left
        refine ⟨m, _, rfl, rfl, rfl, rfl, Or.inr ⟨rows, last, ?_, rfl, hap⟩⟩
        intro hnil
        rw [hnil] at hr
        exact absurd hr (by simp)
      | none =>
        right
        refine ⟨_, _, rows, _, rfl, rfl, rfl, rfl, rfl, rfl, Or.inr ⟨?_, hap, ?_, rfl⟩⟩
        · intro hnil
          rw [hnil] at hr
          exact absurd hr (by simp)
        · simp [commitAndLog, St.emit, List.append_assoc]
    · rw [if_neg hr]
      right
      have hnil : rows = [] := by
        simpa using List.length_eq_zero.mp (by omega)
      refine ⟨_, _, rows, _, rfl, rfl, rfl, rfl, rfl, rfl, Or.inl ⟨hnil, ?_, rfl⟩⟩
      simp [commitAndLog, St.emit, List.append_assoc]

/-- Claim C2 (confirmed): for every page processed by the controller
loop, the checkpoint commit happens only after the staging append for
the page's admitted rows has completed successfully — on a failed
append (or any thrown step) the iteration performs no commit and the
stored checkpoint is unchanged, and on success the append event
strictly precedes the checkpoint-write event in the trace. -/
theorem checkpoint_committed_only_after_persist :
    ∀ (env : Env) (W : Window) (s : St),
      (∀ m s1, stepPage env W s = PageOut.fail m s1 →
         s1.store.checkpoint = s.store.checkpoint ∧ s1.trace = s.trace) ∧
      (∀ s1 cont, stepPage env W s = PageOut.next s1 cont →
         ∃ entry,
           (s1.trace = s.trace ++
              [Event.writeCheckpoint (env.fetch s.checkpoint).end_time,
               Event.logRow entry] ∧
            s1.store.staging = s.store.staging) ∨
           ∃ rows, rows ≠ [] ∧ env.append rows = none ∧
             s1.trace = s.trace ++
               [Event.appendStaging rows,
                Event.writeCheckpoint (env.fetch s.checkpoint).end_time,
                Event.logRow entry]) := by
  intro env W s
  rcases stepPage_cases env W s with
    ⟨m, s1, heq, htr, hst, hcp, horigin⟩ |
    ⟨s1, cont, rows, entry, heq, hcp, hstcp, hcont, hpt, hlogs, hbr⟩
  · constructor
    · intro m2 s2 h2
      rw [heq] at h2
      injection h2 with hm hs
      subst hs
      exact ⟨by rw [hst], htr⟩
    · intro s2 cont2 h2
      rw [heq] at h2
      exact absurd h2 (by simp)
  · constructor
    · intro m2 s2 h2
      rw [heq] at h2
      exact absurd h2 (by simp)
    · intro s2 cont2 h2
      rw [heq] at h2
      injection h2 with hs hc
      subst hs
      refine ⟨entry, ?_⟩
      rcases hbr with ⟨hnil, htr, hstg⟩ | ⟨hne, hap, htr, hstg⟩
      · exact Or.inl ⟨htr, hstg⟩
      · exact Or.inr ⟨rows, hne, hap, htr⟩

/-- Concrete instantiation of the commit-after-persist theorem on a
run whose page stages one row. -/
theorem checkpoint_committed_only_after_persist_witness :
    ∃ entry,
      ((stepPage envOne WDec stInit).stOf.trace = stInit.trace ++
         [Event.writeCheckpoint (envOne.fetch stInit.checkpoint).end_time,
          Event.logRow entry] ∧
       (stepPage envOne WDec stInit).stOf.store.staging = stInit.store.staging) ∨
      ∃ rows, rows ≠ [] ∧ envOne.append rows = none ∧
        (stepPage envOne WDec stInit).stOf.trace = stInit.trace ++
          [Event.appendStaging rows,
           Event.writeCheckpoint (envOne.fetch stInit.checkpoint).end_time,
           Event.logRow entry] :=
  (checkpoint_committed_only_after_persist envOne WDec stInit).2
    (stepPage envOne WDec stInit).stOf (stepPage envOne WDec stInit).contOf rfl

end ZExport

namespace ZExport

/-- Counterexample to claim C3: with a feed that signals end-of-stream
while the committed cursor (1500) is still strictly below the window
end (2000), the invocation nevertheless completes and enters
finalization (the report artifact is created) — so finalization is not
conditional on `cursor ≥ window.end` holding together with end-of-feed. -/
theorem finalization_without_full_drain_cex :
    (runOnce envShortFeed WDec [] 1 storeEmpty).1 = RunStatus.completed ∧
    Event.createFile "Zendesk Export - 2025-12" ∈
      (runOnce envShortFeed WDec [] 1 storeEmpty).2.trace ∧
    (runOnce envShortFeed WDec [] 1 storeEmpty).2.checkpoint = 1500 ∧
    ¬ WDec.endTimestamp ≤ (runOnce envShortFeed WDec [] 1 storeEmpty).2.checkpoint := by
  refine ⟨rfl, ?_, rfl, by decide⟩
  decide

/-- Claim C3 as amended: the loop continues exactly while end-of-stream
is false AND the committed cursor is below the window end AND a
next-page token is present; finalization is entered whenever the loop
exits normally — for any of those three reasons, not only when the
window is fully drained. -/
theorem loop_exit_triggers_finalization :
    (∀ (env : Env) (W : Window) (s s1 : St) (cont : Bool),
       stepPage env W s = PageOut.next s1 cont →
       (cont = true ↔
         ((env.fetch s.checkpoint).end_of_stream = false ∧
          (env.fetch s.checkpoint).end_time < W.endTimestamp ∧
          (env.fetch s.checkpoint).next_page = true))) ∧
    (∀ (env : Env) (W : Window) (rec : List String) (fuel : Nat) (store : Store) (st : St),
       runOnce env W rec fuel store = (RunStatus.completed, st) →
       Event.createFile ("Zendesk Export - " ++ W.monthStr) ∈ st.trace) := by
  constructor
  · intro env W s s1 cont h
    rcases stepPage_cases env W s with
      ⟨m, s2, heq, _, _, _, _⟩ | ⟨s2, cont2, rows, entry, heq, _, _, hcont, _, _, _⟩
    · rw [heq] at h; exact absurd h (by simp)
    · rw [heq] at h
      injection h with hs hc
      subst hc; subst hcont
      simp [contAfter, not_le, and_assoc]
  · intro env W rec fuel store st h
    simp only [runOnce] at h
    cases hl : runLoop env W fuel
        { store := store, trace := [], checkpoint := readCheckpoint store W,
          totalFetched := 0, totalSaved := 0, lastTicketID := none } with
    | done s =>
      rw [hl] at h
      injection h with h1 h2
      subst h2
      rw [finalize_spec]
      simp
    | err m s =>
      rw [hl] at h
      injection h with h1 h2
      exact absurd h1 (by simp)
    | spin s =>
      rw [hl] at h
      injection h with h1 h2
      exact absurd h1 (by simp)

/-- Concrete instantiation of the amended loop-exit theorem: the
single-page run of `envOne` stops (its page signals end-of-stream) and
its completed invocation carries the artifact-creation event. -/
theorem loop_exit_triggers_finalization_witness :
    ((stepPage envOne WDec stInit).contOf = true ↔
      ((envOne.fetch stInit.checkpoint).end_of_stream = false ∧
       (envOne.fetch stInit.checkpoint).end_time < WDec.endTimestamp ∧
       (envOne.fetch stInit.checkpoint).next_page = true)) ∧
    Event.createFile ("Zendesk Export - " ++ WDec.monthStr) ∈
      (runOnce envOne WDec [] 1 storeEmpty).2.trace :=
  ⟨(loop_exit_triggers_finalization).1 envOne WDec stInit
      (stepPage envOne WDec stInit).stOf (stepPage envOne WDec stInit).contOf rfl,
   (loop_exit_triggers_finalization).2 envOne WDec [] 1 storeEmpty
      (runOnce envOne WDec [] 1 storeEmpty).2 rfl⟩

end ZExport

namespace ZExport

/-- Enrichment preserves the record's timestamp. -/
lemma enrichTicket_created {env : Env} {t : Ticket} {row : Row}
    (h : enrichTicket env t = Except.ok row) : row.created_at = t.created_at := by
  simp only [enrichTicket] at h
  split at h
  · exact absurd h (by simp)
  · split at h
    · exact absurd h (by simp)
    · injection h with h1
      rw [← h1]

/-- Every row produced by the per-page loop passed the window test. -/
lemma processTickets_ok_inWindow {env : Env} {W : Window} :
    ∀ {ts : List Ticket} {last last2 : Option Nat} {rows : List Row},
      processTickets env W ts last = Except.ok (rows, last2) →
      ∀ r ∈ rows, inWindow W r.created_at = true := by
  intro ts
  induction ts with
  | nil =>
    intro last last2 rows h r hr
    simp only [processTickets, Except.ok.injEq, Prod.mk.injEq] at h
    rw [← h.1] at hr
    exact absurd hr (by simp)
  | cons t ts ih =>
    intro last last2 rows h r hr
    simp only [processTickets] at h
    split at h
    · rename_i hw
      split at h
      · exact absurd h (by simp)
      · rename_i row0 heq
        split at h
        · exact absurd h (by simp)
        · rename_i rows0 l0 hp
          simp only [Except.ok.injEq, Prod.mk.injEq] at h
          rw [← h.1] at hr
          rcases List.mem_cons.mp hr with hr0 | hr1
          · subst hr0
            rw [enrichTicket_created heq]
            exact hw
          · exact ih hp r hr1
    · exact ih h r hr

/-- New staging appends performed by one loop iteration hold only
in-window rows. -/
lemma stepPage_staged (env : Env) (W : Window) (s : St) :
    ∀ rows, Event.appendStaging rows ∈ (stepPage env W s).stOf.trace →
      Event.appendStaging rows ∈ s.trace ∨
        ∀ r ∈ rows, inWindow W r.created_at = true := by
  intro rows hmem
  rcases stepPage_cases env W s with
    ⟨m, s1, heq, htr, hst, hcp, horigin⟩ |
    ⟨s1, cont, rows0, entry, heq, hcp, hstcp, hcont, hpt, hlogs, hbr⟩
  · rw [heq] at hmem
    simp only [PageOut.stOf] at hmem
    rw [htr] at hmem
    exact Or.inl hmem
  · rw [heq] at hmem
    simp only [PageOut.stOf] at hmem
    rcases hbr with ⟨hnil, htr, hstg⟩ | ⟨hne, hap, htr, hstg⟩
    · rw [htr] at hmem
      rcases List.mem_append.mp hmem with hm | hm
      · exact Or.inl hm
      · exact absurd hm (by simp)
    · rw [htr] at hmem
      rcases List.mem_append.mp hmem with hm | hm
      · exact Or.inl hm
      · right
        have : rows = rows0 := by
          rcases List.mem_cons.mp hm with h0 | h0
          · injection h0
          · exact absurd h0 (by simp)
        rw [this]
        exact processTickets_ok_inWindow hpt

end ZExport

namespace ZExport

/-- Staging appends present after driving the loop either predate the
loop or hold only in-window rows. -/
lemma runLoop_staged (env : Env) (W : Window) :
    ∀ (fuel : Nat) (s : St) (rows : List Row),
      Event.appendStaging rows ∈ (runLoop env W fuel s).st.trace →
      Event.appendStaging rows ∈ s.trace ∨
        ∀ r ∈ rows, inWindow W r.created_at = true := by
  intro fuel
  induction fuel with
  | zero => intro s rows h; exact Or.inl h
  | succ n ih =>
    intro s rows h
    simp only [runLoop] at h
    cases hsp : stepPage env W s with
    | fail m s1 =>
      rw [hsp] at h
      exact stepPage_staged env W s rows (by rw [hsp]; exact h)
    | next s1 cont =>
      rw [hsp] at h
      cases cont with
      | false =>
        have h2 : Event.appendStaging rows ∈ s1.trace := by
          simpa [LoopOut.st] using h
        exact stepPage_staged env W s rows (by rw [hsp]; exact h2)
      | true =>
        have h2 : Event.appendStaging rows ∈ (runLoop env W n s1).st.trace := by
          simpa using h
        rcases ih s1 rows h2 with hin | hok
        · exact stepPage_staged env W s rows (by rw [hsp]; exact hin)
        · exact Or.inr hok

/-- Finalization performs no staging append. -/
lemma finalize_staged (W : Window) (rec : List String) (s : St) (rows : List Row)
    (h : Event.appendStaging rows ∈ (finalize W rec s).trace) :
    Event.appendStaging rows ∈ s.trace := by
  rw [finalize_spec] at h
  dsimp only at h
  by_cases hrec : 0 < rec.length
  · rw [if_pos hrec] at h
    simp only [List.mem_append, List.mem_cons, List.mem_singleton, List.mem_map,
      List.not_mem_nil] at h
    simp at h
    exact h
  · rw [if_neg hrec] at h
    simp only [List.mem_append, List.mem_cons, List.mem_singleton, List.mem_map,
      List.not_mem_nil] at h
    simp at h
    exact h

/-- Claim C1 (confirmed): every row appended to staging during any
invocation carries a parsed timestamp inside the half-open window
`[start, end)`; in particular a record timestamped exactly at the
window end is excluded while one timestamped exactly at the window
start is admitted. -/
theorem staged_rows_respect_window_bounds :
    ∀ (env : Env) (W : Window) (rec : List String) (fuel : Nat) (store : Store)
      (status : RunStatus) (st : St),
      runOnce env W rec fuel store = (status, st) →
      (∀ rows, Event.appendStaging rows ∈ st.trace →
         ∀ r ∈ rows, ∃ ts, r.created_at = some ts ∧
           W.startTimestamp ≤ ts ∧ ts < W.endTimestamp) ∧
      inWindow W (some W.endTimestamp) = false ∧
      (W.startTimestamp < W.endTimestamp → inWindow W (some W.startTimestamp) = true) := by
  intro env W rec fuel store status st h
  refine ⟨?_, by simp [inWindow], fun hlt => by simp [inWindow, hlt]⟩
  intro rows hmem r hr
  have hwin : inWindow W r.created_at = true := by
    simp only [runOnce] at h
    cases hl : runLoop env W fuel
        { store := store, trace := [], checkpoint := readCheckpoint store W,
          totalFetched := 0, totalSaved := 0, lastTicketID := none } with
    | done s =>
      rw [hl] at h
      injection h with h1 h2
      subst h2
      have hmem2 := finalize_staged W rec s rows hmem
      rcases runLoop_staged env W fuel _ rows (by rw [hl]; exact hmem2) with hin | hok
      · exact absurd hin (by simp)
      · exact hok r hr
    | err m s =>
      rw [hl] at h
      injection h with h1 h2
      subst h2
      simp only [St.emit_trace] at hmem
      have hmem2 : Event.appendStaging rows ∈ s.trace := by
        rcases List.mem_append.mp hmem with hm | hm
        · exact hm
        · exact absurd hm (by simp)
      rcases runLoop_staged env W fuel _ rows (by rw [hl]; exact hmem2) with hin | hok
      · exact absurd hin (by simp)
      · exact hok r hr
    | spin s =>
      rw [hl] at h
      injection h with h1 h2
      subst h2
      rcases runLoop_staged env W fuel _ rows (by rw [hl]; exact hmem) with hin | hok
      · exact absurd hin (by simp)
      · exact hok r hr
  cases hc : r.created_at with
  | none => rw [hc] at hwin; exact absurd hwin (by simp [inWindow])
  | some ts =>
    rw [hc] at hwin
    simp only [inWindow, Bool.and_eq_true, decide_eq_true_eq] at hwin
    exact ⟨ts, rfl, hwin.1, hwin.2⟩

/-- Concrete instantiation: the row staged by the `envOne` run sits
inside `WDec`, and the window-end boundary is excluded. -/
theorem staged_rows_respect_window_bounds_witness :
    (∃ ts, rowOne.created_at = some ts ∧
      WDec.startTimestamp ≤ ts ∧ ts < WDec.endTimestamp) ∧
    inWindow WDec (some WDec.endTimestamp) = false :=
  ⟨(staged_rows_respect_window_bounds envOne WDec [] 1 storeEmpty
      (runOnce envOne WDec [] 1 storeEmpty).1 (runOnce envOne WDec [] 1 storeEmpty).2
      rfl).1 [rowOne] (by decide) rowOne (by decide),
   (staged_rows_respect_window_bounds envOne WDec [] 1 storeEmpty
      (runOnce envOne WDec [] 1 storeEmpty).1 (runOnce envOne WDec [] 1 storeEmpty).2
      rfl).2.1⟩

end ZExport

namespace ZExport

/-- A page whose tickets all fail the window test stages nothing. -/
lemma processTickets_all_skip (env : Env) (W : Window) :
    ∀ (ts : List Ticket) (last : Option Nat),
      (∀ t ∈ ts, inWindow W t.created_at = false) →
      processTickets env W ts last = Except.ok ([], last) := by
  intro ts
  induction ts with
  | nil => intro last _; rfl
  | cons t ts ih =>
    intro last h
    have ht := h t (List.mem_cons_self t ts)
    simp only [processTickets, ht]
    exact ih last (fun u hu => h u (List.mem_cons_of_mem t hu))

lemma noAppends_append (a b : List Event) :
    noAppends (a ++ b) = (noAppends a && noAppends b) := List.all_append

lemma noAppends_map_grant (l : List String) :
    noAppends (l.map Event.grantAccess) = true := by
  induction l with
  | nil => rfl
  | cons a l ih => simp only [List.map_cons, noAppends, List.all_cons] at ih ⊢; exact ih

/-- Finalization introduces no staging append into the trace. -/
lemma noAppends_finalize (W : Window) (rec : List String) (s : St) :
    noAppends (finalize W rec s).trace = noAppends s.trace := by
  rw [finalize_spec]
  dsimp only
  by_cases hrec : 0 < rec.length
  · rw [if_pos hrec]
    simp [noAppends_append, noAppends_map_grant, noAppends]
  · rw [if_neg hrec]
    simp [noAppends_append, noAppends_map_grant, noAppends]

/-- Claim C7 (confirmed): re-invoking the controller when the committed
checkpoint already sits at or past the window end — against an upstream
respecting the feed contract (`end_time ≥ cursor`, records at feed
positions `≥ cursor`) — appends no staging row: the run fetches one
page whose records all fall outside the window, re-commits the cursor,
and proceeds directly to finalization. -/
theorem rerun_past_window_end_is_idempotent :
    ∀ (env : Env) (W : Window) (rec : List String) (fuel : Nat) (store : Store) (c0 : Int),
      store.checkpoint = some c0 →
      W.endTimestamp ≤ c0 →
      (∀ c : Int, c ≤ (env.fetch c).end_time) →
      (∀ (c : Int) (t : Ticket), t ∈ (env.fetch c).tickets.getD [] →
        ∀ ts : Int, t.created_at = some ts → c ≤ ts) →
      0 < fuel →
      (runOnce env W rec fuel store).1 = RunStatus.completed ∧
      noAppends (runOnce env W rec fuel store).2.trace = true ∧
      Event.createFile ("Zendesk Export - " ++ W.monthStr) ∈
        (runOnce env W rec fuel store).2.trace := by
  intro env W rec fuel store c0 hsome hend Hc Hpos hfuel
  obtain ⟨n, rfl⟩ : ∃ n, fuel = n + 1 := ⟨fuel - 1, by omega⟩
  have hread : readCheckpoint store W = c0 := by
    unfold readCheckpoint; rw [hsome]
  set s0 : St :=
    { store := store, trace := [], checkpoint := readCheckpoint store W,
      totalFetched := 0, totalSaved := 0, lastTicketID := none } with hs0
  have hcp0 : s0.checkpoint = c0 := hread
  have hskip : ∀ t ∈ (env.fetch s0.checkpoint).tickets.getD [],
      inWindow W t.created_at = false := by
    intro t ht
    cases hta : t.created_at with
    | none => rfl
    | some ts =>
      have h1 : s0.checkpoint ≤ ts := Hpos s0.checkpoint t ht ts hta
      have h2 : ¬ ts < W.endTimestamp := by rw [hcp0] at h1; omega
      simp [inWindow, h2]
  have hpt := processTickets_all_skip env W
    ((env.fetch s0.checkpoint).tickets.getD []) s0.lastTicketID hskip
  rcases stepPage_cases env W s0 with
    ⟨m, s1, heq, htr, hst, hcp, horigin⟩ |
    ⟨s1, cont, rows, entry, heq, hcp, hstcp, hcont, hpt2, hlogs, hbr⟩
  · exfalso
    rcases horigin with hor | ⟨rows, last2, hne, hor, hap⟩
    · rw [hpt] at hor; exact absurd hor (by simp)
    · rw [hpt] at hor
      simp only [Except.ok.injEq, Prod.mk.injEq] at hor
      exact hne hor.1.symm
  · have hrows : rows = [] := by
      rw [hpt] at hpt2
      simp only [Except.ok.injEq, Prod.mk.injEq] at hpt2
      exact hpt2.1.symm
    have hcontf : cont = false := by
      rw [hcont]
      have hle : W.endTimestamp ≤ (env.fetch s0.checkpoint).end_time := by
        rw [hcp0]
        have := Hc c0
        omega
      simp [contAfter, hle]
    subst hcontf
    have hloop : runLoop env W (n + 1) s0 = LoopOut.done s1 := by
      simp only [runLoop, heq]
      rfl
    have hrun : runOnce env W rec (n + 1) store = (RunStatus.completed, finalize W rec s1) := by
      simp only [runOnce, ← hs0, hloop]
    rw [hrun]
    rcases hbr with ⟨_, htr, _⟩ | ⟨hne, _, _, _⟩
    · refine ⟨rfl, ?_, ?_⟩
      · rw [noAppends_finalize, htr]
        rfl
      · rw [finalize_spec]
        simp
    · exact absurd hrows hne

/-- Concrete instantiation of the idempotent-re-run theorem on
`envPastEnd` with the checkpoint already committed at the window end. -/
theorem rerun_past_window_end_is_idempotent_witness :
    (runOnce envPastEnd WDec [] 1 storeAtEnd).1 = RunStatus.completed ∧
    noAppends (runOnce envPastEnd WDec [] 1 storeAtEnd).2.trace = true ∧
    Event.createFile ("Zendesk Export - " ++ WDec.monthStr) ∈
      (runOnce envPastEnd WDec [] 1 storeAtEnd).2.trace :=
  rerun_past_window_end_is_idempotent envPastEnd WDec [] 1 storeAtEnd 2000
    rfl (by decide)
    (fun c => by simp [envPastEnd, le_max_left])
    (fun c t ht ts hta => by
      have ht2 : t = { id := 7, created_at := some (max c 2000), requester_id := none,
                       channel := none, subject := none } := by
        simpa [envPastEnd] using ht
      subst ht2
      injection hta with h
      rw [← h]
      exact le_max_left c 2000)
    (by decide)

end ZExport

namespace ZExport

/-- Failing input for claim C4, evaluating the code: a `WDec` run over
`envCrash` commits cursor 1500 and then crashes, leaving the unscoped
checkpoint cell at 1500; a subsequent run for the different window
`WJan` reads that very cursor (1500, below `WJan`'s own start) because
the read is not keyed by any window id, and demonstrably resumes
fetching from it (the probe commits 1500 + 10). -/
theorem unscoped_checkpoint_adopted_across_windows :
    (runOnce envCrash WDec [] 2 storeEmpty).1 = RunStatus.crashed "boom" ∧
    (runOnce envCrash WDec [] 2 storeEmpty).2.store.checkpoint = some 1500 ∧
    readCheckpoint (runOnce envCrash WDec [] 2 storeEmpty).2.store WJan = 1500 ∧
    readCheckpoint (runOnce envCrash WDec [] 2 storeEmpty).2.store WJan <
      WJan.startTimestamp ∧
    (runOnce envProbe WJan [] 1 (runOnce envCrash WDec [] 2 storeEmpty).2.store).2.checkpoint
      = 1510 := by
  refine ⟨?_, ?_, ?_, by decide, ?_⟩ <;> decide

/-- Counterexample to claim C8: (a) an identity lookup whose request
throws aborts the whole batch — the run crashes, nothing is staged (the
second record is lost), and the single failure log row carries the
literal "FAIL", not the affected record id; (b) an identity lookup that
merely resolves without a user degrades to "N/A" and continues, but the
audit trail is bit-for-bit identical to that of a fully successful run,
so no failure is attributable to the record in the audit trail. -/
theorem enrichment_failure_unattributed_cex :
    (runOnce envThrown WDec [] 1 storeEmpty).1 = RunStatus.crashed "boom" ∧
    noAppends (runOnce envThrown WDec [] 1 storeEmpty).2.trace = true ∧
    (runOnce envThrown WDec [] 1 storeEmpty).2.store.logs = [errorEntry WDec "boom"] ∧
    (errorEntry WDec "boom").lastTicket = "FAIL" ∧
    (runOnce envUserless WDec [] 1 storeEmpty).2.store.logs =
      (runOnce envUserOk WDec [] 1 storeEmpty).2.store.logs ∧
    Event.appendStaging [rowANA, rowBNA] ∈
      (runOnce envUserless WDec [] 1 storeEmpty).2.trace := by
  refine ⟨?_, ?_, ?_, ?_, ?_, ?_⟩ <;> decide

/-- Claim C8 as amended: an identity lookup that resolves without a
usable user degrades the record to the "N/A" placeholder and the batch
continues past it; a lookup whose request throws aborts the invocation,
and the only failure record then appended to the audit trail is the
top-level error row, whose last-ticket field is the literal "FAIL"
rather than the affected record id. -/
theorem enrichment_failure_degrades_without_attribution :
    (∀ (env : Env) (t : Ticket) (rid : Nat) (co : Option (List Comment)),
       t.requester_id = some rid →
       env.userLookup rid = Lookup.ok none →
       env.commentLookup t.id = Lookup.ok co →
       enrichTicket env t = Except.ok
         { record_id := t.id, created_at := t.created_at, requester_email := "N/A",
           channel := jsOr t.channel "", subject := jsOr t.subject "",
           body_digest := formatComments t.requester_id (co.getD []) }) ∧
    (∀ (env : Env) (W : Window) (t : Ticket) (ts : List Ticket) (last : Option Nat)
       (row : Row) (rows : List Row) (l2 : Option Nat),
       inWindow W t.created_at = true →
       enrichTicket env t = Except.ok row →
       processTickets env W ts (some t.id) = Except.ok (rows, l2) →
       processTickets env W (t :: ts) last = Except.ok (row :: rows, l2)) ∧
    (∀ (env : Env) (W : Window) (rec : List String) (fuel : Nat) (store : Store)
       (m : String) (st : St),
       runOnce env W rec fuel store = (RunStatus.crashed m, st) →
       st.store.logs.getLast? = some (errorEntry W m) ∧
       (errorEntry W m).lastTicket = "FAIL") := by
  refine ⟨?_, ?_, ?_⟩
  · intro env t rid co h1 h2 h3
    simp only [enrichTicket, h1, h2, h3, jsOr]
  · intro env W t ts last row rows l2 hw he hp
    simp only [processTickets, hw, he, hp]
    rfl
  · intro env W rec fuel store m st h
    simp only [runOnce] at h
    cases hl : runLoop env W fuel
        { store := store, trace := [], checkpoint := readCheckpoint store W,
          totalFetched := 0, totalSaved := 0, lastTicketID := none } with
    | done s =>
      rw [hl] at h
      injection h with h1 h2
      exact absurd h1 (by simp)
    | err m2 s =>
      rw [hl] at h
      injection h with h1 h2
      injection h1 with h1
      subst h1
      subst h2
      refine ⟨?_, rfl⟩
      simp only [St.emit_store, Store.apply]
      exact List.getLast?_concat _
    | spin s =>
      rw [hl] at h
      injection h with h1 h2
      exact absurd h1 (by simp)

/-- Concrete instantiations discharging the hypotheses of the amended
enrichment-failure theorem: the degraded row for `tA` under
`envUserless`, and the crashed `envThrown` run's terminal error row. -/
theorem enrichment_failure_degrades_without_attribution_witness :
    enrichTicket envUserless tA = Except.ok
      { record_id := tA.id, created_at := tA.created_at, requester_email := "N/A",
        channel := jsOr tA.channel "", subject := jsOr tA.subject "",
        body_digest := formatComments tA.requester_id ((none : Option (List Comment)).getD []) } ∧
    ((runOnce envThrown WDec [] 1 storeEmpty).2.store.logs.getLast? =
       some (errorEntry WDec "boom") ∧
     (errorEntry WDec "boom").lastTicket = "FAIL") :=
  ⟨enrichment_failure_degrades_without_attribution.1 envUserless tA 5 none rfl rfl rfl,
   enrichment_failure_degrades_without_attribution.2.2 envThrown WDec [] 1 storeEmpty
     "boom" (runOnce envThrown WDec [] 1 storeEmpty).2 rfl⟩

end ZExport

namespace ZExport

lemma commits_append (a b : List Event) : commits (a ++ b) = commits a ++ commits b := by
  induction a with
  | nil => rfl
  | cons e a ih => cases e <;> simp [commits, ih]

lemma commits_map_grant (l : List String) : commits (l.map Event.grantAccess) = [] := by
  induction l with
  | nil => rfl
  | cons a l ih => simpa [commits] using ih

/-- Finalization commits no checkpoint value. -/
lemma commits_finalize (W : Window) (rec : List String) (s : St) :
    commits (finalize W rec s).trace = commits s.trace := by
  rw [finalize_spec]
  dsimp only
  by_cases hrec : 0 < rec.length
  · rw [if_pos hrec]
    simp [commits_append, commits_map_grant, commits]
  · rw [if_neg hrec]
    simp [commits_append, commits_map_grant, commits]

lemma chain_le_getLastD {a : Int} {l : List Int} (h : List.Chain (· ≤ ·) a l) :
    a ≤ l.getLastD a := by
  induction l generalizing a with
  | nil => simp
  | cons b l ih =>
    rw [List.chain_cons] at h
    rw [List.getLastD_cons]
    exact le_trans h.1 (ih h.2)

lemma chain_le_forall {a : Int} {l : List Int} (h : List.Chain (· ≤ ·) a l) :
    ∀ x ∈ l, a ≤ x := by
  induction l generalizing a with
  | nil => simp
  | cons b l ih =>
    rw [List.chain_cons] at h
    intro x hx
    rcases List.mem_cons.mp hx with rfl | hx
    · exact h.1
    · exact le_trans h.1 (ih h.2 x hx)

lemma chain_append_lastD {a : Int} {l1 l2 : List Int}
    (h1 : List.Chain (· ≤ ·) a l1) (h2 : List.Chain (· ≤ ·) (l1.getLastD a) l2) :
    List.Chain (· ≤ ·) a (l1 ++ l2) := by
  induction l1 generalizing a with
  | nil => simpa using h2
  | cons b l1 ih =>
    rw [List.chain_cons] at h1
    rw [List.getLastD_cons] at h2
    exact List.chain_cons.mpr ⟨h1.1, ih h1.2 h2⟩

/-- Commit history of one driven loop: under the feed contract the
committed values form a non-decreasing chain starting at the incoming
cursor, the in-memory cursor ends at the last committed value, and the
stored checkpoint cell holds it (or is untouched when nothing was
committed). -/
lemma runLoop_commits_spec (env : Env) (W : Window)
    (Hc : ∀ c : Int, c ≤ (env.fetch c).end_time) :
    ∀ (fuel : Nat) (s : St), ∃ l,
      (runLoop env W fuel s).st.trace = s.trace ++ l ∧
      List.Chain (· ≤ ·) s.checkpoint (commits l) ∧
      (runLoop env W fuel s).st.checkpoint = (commits l).getLastD s.checkpoint ∧
      ((commits l = [] ∧ (runLoop env W fuel s).st.store.checkpoint = s.store.checkpoint) ∨
       (commits l ≠ [] ∧ (runLoop env W fuel s).st.store.checkpoint =
          some ((commits l).getLastD s.checkpoint))) := by
  intro fuel
  induction fuel with
  | zero =>
    intro s
    exact ⟨[], by simp [runLoop, LoopOut.st], List.Chain.nil,
      by simp [runLoop, LoopOut.st, commits], Or.inl ⟨rfl, rfl⟩⟩
  | succ n ih =>
    intro s
    rcases stepPage_cases env W s with
      ⟨m, s1, heq, htr, hst, hcp, _⟩ |
      ⟨s1, cont, rows, entry, heq, hcp, hstcp, hcont, hpt, hlogs, hbr⟩
    · have hrun : runLoop env W (n + 1) s = LoopOut.err m s1 := by
        simp only [runLoop, heq]
      refine ⟨[], ?_, List.Chain.nil, ?_, Or.inl ⟨rfl, ?_⟩⟩
      · simp [hrun, LoopOut.st, htr]
      · simp [hrun, LoopOut.st, hcp, commits]
      · simp [hrun, LoopOut.st, hst]
    · have hrun : runLoop env W (n + 1) s =
          if cont = true then runLoop env W n s1 else LoopOut.done s1 := by
        simp only [runLoop, heq]
      have hle : s.checkpoint ≤ (env.fetch s.checkpoint).end_time := Hc s.checkpoint
      have hpe : ∃ pe, s1.trace = s.trace ++ pe ∧
          commits pe = [(env.fetch s.checkpoint).end_time] := by
        rcases hbr with ⟨_, htr, _⟩ | ⟨_, _, htr, _⟩
        · exact ⟨_, htr, by simp [commits]⟩
        · exact ⟨_, htr, by simp [commits]⟩
      obtain ⟨pe, htrpe, hcpe⟩ := hpe
      cases cont with
      | false =>
        rw [if_neg (by simp)] at hrun
        refine ⟨pe, ?_, ?_, ?_, Or.inr ⟨?_, ?_⟩⟩
        · simp [hrun, LoopOut.st, htrpe]
        · rw [hcpe]
          exact List.chain_cons.mpr ⟨hle, List.Chain.nil⟩
        · simp [hrun, LoopOut.st, hcpe, hcp]
        · simp [hcpe]
        · simp [hrun, LoopOut.st, hcpe, hstcp]
      | true =>
        rw [if_pos rfl] at hrun
        obtain ⟨l2, htr2, hch2, hcp2, hst2⟩ := ih s1
        refine ⟨pe ++ l2, ?_, ?_, ?_, Or.inr ⟨?_, ?_⟩⟩
        · rw [hrun, htr2, htrpe, List.append_assoc]
        · rw [commits_append, hcpe]
          refine List.chain_cons.mpr ⟨hle, ?_⟩
          rw [← hcp]
          exact hch2
        · rw [hrun, hcp2, commits_append, hcpe, List.singleton_append, List.getLastD_cons, hcp]
        · rw [commits_append, hcpe]
          simp
        · rw [commits_append, hcpe, List.singleton_append, List.getLastD_cons]
          rcases hst2 with ⟨hnil2, hsame⟩ | ⟨_, hval⟩
          · rw [hrun, hsame, hstcp, hnil2]
            simp [hcp]
          · rw [hrun, hval, hcp]

end ZExport

namespace ZExport

/-- Commit history of one full invocation: the committed values chain
upward from the cursor that was read; on a non-completed run the next
read returns the last committed value (or the unchanged old one); any
checkpoint left in the store is at least the cursor that was read. -/
lemma readCheckpoint_some {s : Store} {W : Window} {c : Int} (h : s.checkpoint = some c) :
    readCheckpoint s W = c := by
  unfold readCheckpoint; rw [h]

lemma readCheckpoint_congr {s1 s2 : Store} {W : Window} (h : s1.checkpoint = s2.checkpoint) :
    readCheckpoint s1 W = readCheckpoint s2 W := by
  unfold readCheckpoint; rw [h]

lemma runOnce_commits_spec (env : Env) (W : Window) (rec : List String) (fuel : Nat)
    (store : Store) (Hc : ∀ c : Int, c ≤ (env.fetch c).end_time) :
    List.Chain (· ≤ ·) (readCheckpoint store W)
      (commits (runOnce env W rec fuel store).2.trace) ∧
    ((runOnce env W rec fuel store).1 ≠ RunStatus.completed →
      readCheckpoint (runOnce env W rec fuel store).2.store W =
        (commits (runOnce env W rec fuel store).2.trace).getLastD (readCheckpoint store W)) ∧
    (∀ c, (runOnce env W rec fuel store).2.store.checkpoint = some c →
      readCheckpoint store W ≤ c) := by
  obtain ⟨l, htr, hch, hcp, hst⟩ := runLoop_commits_spec env W Hc fuel
    { store := store, trace := [], checkpoint := readCheckpoint store W,
      totalFetched := 0, totalSaved := 0, lastTicketID := none }
  simp only [runOnce]
  cases hl : runLoop env W fuel
      { store := store, trace := [], checkpoint := readCheckpoint store W,
        totalFetched := 0, totalSaved := 0, lastTicketID := none } with
  | done s =>
    rw [hl] at htr hcp hst
    simp only [LoopOut.st] at htr hcp hst
    dsimp only
    have hcl : commits (finalize W rec s).trace = commits l := by
      rw [commits_finalize, htr]
      simp
    refine ⟨?_, fun hne => absurd rfl hne, ?_⟩
    · rw [hcl]; exact hch
    · intro c hc
      rw [finalize_spec] at hc
      exact absurd hc (by simp)
  | err m s =>
    rw [hl] at htr hcp hst
    simp only [LoopOut.st] at htr hcp hst
    dsimp only
    have hsc2 : (s.emit (Event.logRow (errorEntry W m))).store.checkpoint =
        s.store.checkpoint := rfl
    have hcl : commits (s.emit (Event.logRow (errorEntry W m))).trace = commits l := by
      rw [St.emit_trace, commits_append, htr]
      simp [commits]
    refine ⟨?_, ?_, ?_⟩
    · rw [hcl]; exact hch
    · intro _
      rcases hst with ⟨hnil, hsame⟩ | ⟨_, hval⟩
      · rw [hcl, hnil]
        simpa using readCheckpoint_congr (W := W) (hsc2.trans hsame)
      · rw [hcl]
        exact readCheckpoint_some (by rw [hsc2, hval])
    · intro c hc
      rw [hsc2] at hc
      rcases hst with ⟨_, hsame⟩ | ⟨_, hval⟩
      · rw [hsame] at hc
        exact le_of_eq (readCheckpoint_some hc)
      · rw [hval] at hc
        injection hc with hc
        rw [← hc]
        exact chain_le_getLastD hch
  | spin s =>
    rw [hl] at htr hcp hst
    simp only [LoopOut.st] at htr hcp hst
    dsimp only
    have hcl : commits s.trace = commits l := by rw [htr]; simp
    refine ⟨?_, ?_, ?_⟩
    · rw [hcl]; exact hch
    · intro _
      rcases hst with ⟨hnil, hsame⟩ | ⟨_, hval⟩
      · rw [hcl, hnil]
        simpa using readCheckpoint_congr (W := W) hsame
      · rw [hcl]
        exact readCheckpoint_some hval
    · intro c hc
      rcases hst with ⟨_, hsame⟩ | ⟨_, hval⟩
      · rw [hsame] at hc
        exact le_of_eq (readCheckpoint_some hc)
      · rw [hval] at hc
        injection hc with hc
        rw [← hc]
        exact chain_le_getLastD hch

/-- Commit history across a sequence of invocations threading the
store: every committed value is at least the window start, and while no
invocation completes (finalization deletes the checkpoint), the whole
committed sequence chains upward from the first cursor read. -/
lemma runSeq_commits_spec (W : Window) (rec : List String) :
    ∀ (invs : List (Env × Nat)) (store : Store),
      (∀ p ∈ invs, ∀ c : Int, c ≤ ((p : Env × Nat).1.fetch c).end_time) →
      (∀ c, store.checkpoint = some c → W.startTimestamp ≤ c) →
      (∀ x ∈ (runSeq W rec invs store).2.1, W.startTimestamp ≤ x) ∧
      (RunStatus.completed ∉ (runSeq W rec invs store).2.2 →
        List.Chain (· ≤ ·) (readCheckpoint store W) (runSeq W rec invs store).2.1) := by
  intro invs
  induction invs with
  | nil =>
    intro store _ _
    exact ⟨by simp [runSeq], fun _ => List.Chain.nil⟩
  | cons p rest ih =>
    intro store Hc Hinv
    obtain ⟨env, fuel⟩ := p
    have Hc0 : ∀ c : Int, c ≤ (env.fetch c).end_time :=
      fun c => Hc (env, fuel) (List.mem_cons_self _ _) c
    have Hcrest : ∀ p ∈ rest, ∀ c : Int, c ≤ ((p : Env × Nat).1.fetch c).end_time :=
      fun p hp c => Hc p (List.mem_cons_of_mem _ hp) c
    have hro := runOnce_commits_spec env W rec fuel store Hc0
    have hread : W.startTimestamp ≤ readCheckpoint store W := by
      unfold readCheckpoint
      cases hsc : store.checkpoint with
      | none => exact le_refl _
      | some c => exact Hinv c hsc
    have Hinv2 : ∀ c, (runOnce env W rec fuel store).2.store.checkpoint = some c →
        W.startTimestamp ≤ c :=
      fun c hc => le_trans hread (hro.2.2 c hc)
    have ihx := ih (runOnce env W rec fuel store).2.store Hcrest Hinv2
    have hseq : runSeq W rec ((env, fuel) :: rest) store =
        ((runSeq W rec rest (runOnce env W rec fuel store).2.store).1,
         commits (runOnce env W rec fuel store).2.trace ++
           (runSeq W rec rest (runOnce env W rec fuel store).2.store).2.1,
         (runOnce env W rec fuel store).1 ::
           (runSeq W rec rest (runOnce env W rec fuel store).2.store).2.2) := by
      simp only [runSeq]
    constructor
    · intro x hx
      rw [hseq] at hx
      rcases List.mem_append.mp hx with hx | hx
      · exact le_trans hread (chain_le_forall hro.1 x hx)
      · exact ihx.1 x hx
    · intro hnc
      rw [hseq] at hnc
      have hnc1 : (runOnce env W rec fuel store).1 ≠ RunStatus.completed := by
        intro hcomp
        exact hnc (by rw [← hcomp]; exact List.mem_cons_self _ _)
      have hnc2 : RunStatus.completed ∉
          (runSeq W rec rest (runOnce env W rec fuel store).2.store).2.2 :=
        fun hmem => hnc (List.mem_cons_of_mem _ hmem)
      have hchain2 := ihx.2 hnc2
      rw [hro.2.1 hnc1] at hchain2
      rw [hseq]
      exact chain_append_lastD hro.1 hchain2

/-- Claim C5 as amended: across any sequence of invocations for one
window starting from a store with no checkpoint, under the paginator
contract every committed checkpoint value is at least the window start;
and as long as no invocation completes (successful finalization deletes
the checkpoint and a later run re-seeds at the window start), the
committed values are monotonically non-decreasing. -/
theorem checkpoint_floor_and_monotone_until_finalize :
    ∀ (W : Window) (rec : List String) (invs : List (Env × Nat)) (store : Store),
      store.checkpoint = none →
      (∀ p ∈ invs, ∀ c : Int, c ≤ ((p : Env × Nat).1.fetch c).end_time) →
      (∀ x ∈ (runSeq W rec invs store).2.1, W.startTimestamp ≤ x) ∧
      (RunStatus.completed ∉ (runSeq W rec invs store).2.2 →
        List.Chain (· ≤ ·) W.startTimestamp (runSeq W rec invs store).2.1) := by
  intro W rec invs store hnone Hc
  have h := runSeq_commits_spec W rec invs store Hc
    (fun c hc => by rw [hnone] at hc; cases hc)
  have hread : readCheckpoint store W = W.startTimestamp := by
    unfold readCheckpoint; rw [hnone]
  exact ⟨h.1, fun hnc => hread ▸ h.2 hnc⟩

/-- Concrete instantiation of the amended checkpoint theorem on a
single contract-respecting invocation. -/
theorem checkpoint_floor_and_monotone_witness :
    (∀ x ∈ (runSeq WDec [] [(envLow, 1)] storeEmpty).2.1, WDec.startTimestamp ≤ x) ∧
    (RunStatus.completed ∉ (runSeq WDec [] [(envLow, 1)] storeEmpty).2.2 →
      List.Chain (· ≤ ·) WDec.startTimestamp (runSeq WDec [] [(envLow, 1)] storeEmpty).2.1) :=
  checkpoint_floor_and_monotone_until_finalize WDec [] [(envLow, 1)] storeEmpty rfl
    (fun p hp c => by
      have hp2 : p = (envLow, 1) := by simpa using hp
      rw [hp2]
      simp [envLow, le_max_left])

/-- Counterexample to claim C5 as stated: two contract-respecting
invocations for the same window — the first of which completes, so
finalization clears the checkpoint and the second re-seeds at the
window start — commit the values 5000 then 1500: the committed sequence
is not monotonically non-decreasing across the sequence of invocations. -/
theorem checkpoint_monotonicity_cex :
    (∀ c : Int, c ≤ (envHigh.fetch c).end_time) ∧
    (∀ c : Int, c ≤ (envLow.fetch c).end_time) ∧
    (runSeq WDec [] [(envHigh, 1), (envLow, 1)] storeEmpty).2.1 = [5000, 1500] ∧
    ¬ ((5000 : Int) ≤ 1500) :=
  ⟨fun c => by simp [envHigh, le_max_left],
   fun c => by simp [envLow, le_max_left],
   by decide,
   by decide⟩

end ZExport
